import Mathlib

/-!
Verification of the document-extraction pipeline of `fn-api-dynamic`
(`src/server/services/llmService.ts` and `src/server/services/pdfProcessor.ts`)
against its natural-language specification.

The embedding models JavaScript runtime values with the inductive `Json`
(JS `Error` objects appear as `Json.err`, since caught exceptions are stored in
`PageResult.raw` and carried around as ordinary values).  External boundaries —
the axios POST to the LLM endpoint, the builtin `JSON.parse`, and the `pdf2pic`
page converter — are taken as explicit function parameters; everything else is
translated directly from the TypeScript source.
-/

namespace FnApi

/-- A JavaScript runtime value as used by the extraction pipeline.  `num` is
modelled as `Int` (the pipeline only moves numbers around — it never does
arithmetic on them, so the float representation is irrelevant).  `err m`
models a JS `Error` object with message `m` (its properties are
non-enumerable, so it contributes nothing to `Object.assign` or
`JSON.stringify`). -/
inductive Json where
  | null
  | bool (b : Bool)
  | num (n : Int)
  | str (s : String)
  | arr (elems : List Json)
  | obj (fields : List (String × Json))
  | err (msg : String)
deriving Repr

/-- JS truthiness of a value (`undefined` is represented by `Option.none`
at use sites, never by a `Json` constructor). -/
def truthy : Json → Bool
  | .null => false
  | .bool b => b
  | .num n => n != 0
  | .str s => s != ""
  | .arr _ => true
  | .obj _ => true
  | .err _ => true

/-- First binding of a key in an association list (JS objects cannot hold
duplicate keys, so first-match lookup is exact). -/
def lookupField : List (String × Json) → String → Option Json
  | [], _ => none
  | (k', v) :: fs, k => if k' = k then some v else lookupField fs k

/-- Own-property read `v[key]`: `none` models the JS result `undefined`.
Non-objects have no modelled properties (index/`length` properties of JS
strings are not modelled; no claim exercises them). -/
def getField : Json → String → Option Json
  | .obj fs, k => lookupField fs k
  | _, _ => none

/-- Property write `o[key] = v`: overwrites in place when the key exists
(JS keeps the original insertion position), otherwise appends. -/
def setField : List (String × Json) → String → Json → List (String × Json)
  | [], k, v => [(k, v)]
  | (k', v') :: fs, k, v => if k' = k then (k, v) :: fs else (k', v') :: setField fs k v

/-- `Object.keys(v)`.  Total in the model, unlike JS `Object.keys`, which
throws a `TypeError` on `null`: theorems about code paths that reach this
call therefore restrict the schema to objects.  On the other primitives JS
returns `[]` as modelled here (string index keys are not modelled). -/
def objKeys : Json → List String
  | .obj fs => fs.map Prod.fst
  | _ => []

mutual
/-- JS `String(v)` coercion (used by template literals and `Array.join`). -/
def jsToString : Json → String
  | .null => "null"
  | .bool b => if b then ("true") else ("false")
  | .num n => toString n
  | .str s => s
  | .arr xs => jsArrToString xs
  | .obj _ => "[object Object]"
  | .err m => "SyntaxError: " ++ m

/-- `Array.prototype.toString`: elements joined with `","`, with `null`
elements rendered as the empty string. -/
def jsArrToString : List Json → String
  | [] => ""
  | [x] => jsElemToString x
  | x :: xs => jsElemToString x ++ "," ++ jsArrToString xs

/-- One element of an array/`join` rendering: `null` becomes `""`. -/
def jsElemToString : Json → String
  | .null => ""
  | .bool b => if b then ("true") else ("false")
  | .num n => toString n
  | .str s => s
  | .arr xs => jsArrToString xs
  | .obj _ => "[object Object]"
  | .err m => "SyntaxError: " ++ m
end

/-- `Array.prototype.join(sep)`. -/
def jsJoin (sep : String) (values : List Json) : String :=
  String.intercalate sep (values.map jsElemToString)

mutual
/-- `JSON.stringify` (up to whitespace: the source calls
`JSON.stringify(x, null, 2)`; indentation and string escaping are not
modelled, neither affects the containment properties proved here).
`Error` objects have no enumerable own properties, hence `"{}"`. -/
def jsonStringify : Json → String
  | .null => "null"
  | .bool b => if b then ("true") else ("false")
  | .num n => toString n
  | .str s => "\"" ++ s ++ "\""
  | .arr xs => "[" ++ stringifyElems xs ++ "]"
  | .obj fs => "\x7b" ++ stringifyFields fs ++ "\x7d"
  | .err _ => "\x7b\x7d"

/-- Comma-separated renderings of array elements. -/
def stringifyElems : List Json → String
  | [] => ""
  | [x] => jsonStringify x
  | x :: xs => jsonStringify x ++ "," ++ stringifyElems xs

/-- Comma-separated `"key":value` renderings of object members. -/
def stringifyFields : List (String × Json) → String
  | [] => ""
  | [(k, v)] => "\"" ++ k ++ "\":" ++ jsonStringify v
  | (k, v) :: fs => "\"" ++ k ++ "\":" ++ jsonStringify v ++ "," ++ stringifyFields fs
end

/-! ## ResultMerger: `combinePageResults` (llmService.ts lines 194-235) -/

/-- `pageResult.data || pageResult` (lines 200 and 210): the page's parsed
`data` when that field is present and truthy, otherwise the PageResult
wrapper object itself. -/
def pageDataOf (pr : Json) : Json :=
  match getField pr ("data") with
  | some d => if truthy d then d else pr
  | none => pr

/-- Lines 210-213: one page's contribution for a key — `pageData[key]` when
it is `!== undefined && !== null && !== ''`. -/
def collectOne (key : String) (pr : Json) : Option Json :=
  match getField (pageDataOf pr) key with
  | some Json.null => none
  | some (Json.str s) => if s = "" then none else some (Json.str s)
  | some v => some v
  | none => none

/-- Lines 207-214: collect, in page order, every page's contribution. -/
def collectValues (prs : List Json) (key : String) : List Json :=
  prs.filterMap (collectOne key)

/-- `values.flat()` (line 219): one-level flattening. -/
def jsFlat (values : List Json) : List Json :=
  values.flatMap (fun v => match v with | .arr xs => xs | x => [x])

/-- `Object.assign({}, ...values)` (line 221): shallow merge of the collected
values' own enumerable properties in order, later sources overwriting.
Only objects contribute properties (`Error` props are non-enumerable;
string/array index properties are not modelled). -/
def objAssign (values : List Json) : Json :=
  .obj (values.foldl (fun acc v =>
    match v with
    | .obj fs => fs.foldl (fun a kv => setField a kv.1 kv.2) acc
    | _ => acc) [])

/-- Last element of the collected values (`values[values.length - 1]`,
lines 225/227; only reached when `values` is nonempty). -/
def lastValue (values : List Json) : Json :=
  (values.getLast?).getD .null

/-- Lines 216-228: the per-key merge rule, dispatched on the expected
schema's value for the key in the source's `if`/`else if` order
(`Array.isArray`, then `typeof === 'object' && !== null` — which a JS
`Error` object also satisfies — then `'string'`, then `'number'`, else). -/
def mergeValue (schemaVal : Json) (values : List Json) : Json :=
  if values.isEmpty then schemaVal
  else match schemaVal with
    | .arr _ => .arr (jsFlat values)
    | .obj _ => objAssign values
    | .err _ => objAssign values
    | .str _ => .str (jsJoin (" ") values)
    | .num _ => lastValue values
    | _ => lastValue values

/-- The per-key assignment loop `for (const key of schemaKeys) {...}` into
the initially empty `combinedResult`, for a per-key value function. -/
def buildCombined (f : String → Json) (ks : List String) : List (String × Json) :=
  ks.foldl (fun acc key => setField acc key (f key)) []

/-- Lines 203-234: the ≥2-page branch of `combinePageResults` — the per-key
loop over `Object.keys(expectedSchema)`, then the `_pageResults` and
`_totalPages` assignments. -/
def combineMulti (prs : List Json) (expectedSchema : Json) : Json :=
  .obj (setField (setField
    (buildCombined
      (fun key => mergeValue ((getField expectedSchema key).getD .null) (collectValues prs key))
      (objKeys expectedSchema))
    ("_pageResults") (.arr prs)) ("_totalPages") (.num prs.length))

/-- `combinePageResults` (lines 194-235).  PageResults are the wrapper
objects produced by `processSinglePage`. -/
def combinePageResults (pageResults : List Json) (expectedSchema : Json) : Json :=
  match pageResults with
  | [] => expectedSchema
  | [pr] => pageDataOf pr
  | prs => combineMulti prs expectedSchema

/-- A successful PageResult wrapper `{ page, data }` (lines 158-161). -/
def mkDataPage (n : Nat) (d : Json) : Json :=
  .obj [("page", .num n), ("data", d)]

/-- A failed PageResult wrapper `{ page, error, raw }` (lines 164-168);
`r` is the caught exception value. -/
def mkErrorPage (n : Nat) (msg : String) (r : Json) : Json :=
  .obj [("page", .num n), ("error", .str msg), ("raw", r)]

/-- Does the wrapper carry a present-and-truthy `data` field? -/
def hasTruthyData (pr : Json) : Bool :=
  match getField pr ("data") with
  | some d => truthy d
  | none => false

/-! ## PromptBuilder: `buildExtractionPrompt` (llmService.ts lines 237-336) -/

/-- Per-field metadata as read by the prompt builder (`decimalPlaces` exists
in the data model but is never read by this code, so it is omitted). -/
structure FieldMeta where
  type : Option String := none
  description : Option String := none
  choices : Option (List String) := none
deriving Repr

/-- The `DocumentData` interface (llmService.ts lines 9-17). -/
structure DocumentData where
  filedata : String := ""
  fileurl : String := ""
  filename : String := ""
  filetype : String := ""
  description : String := ""
  remark : Option String := none
  password : Option String := none
deriving Repr

/-- JS `String.prototype.toLowerCase` on the character list (ASCII range, as
exercised by the file types and metadata type tags this code compares;
`String.toLower` itself is byte-position based and does not reduce in the
kernel). -/
def jsToLower (s : String) : String :=
  ⟨s.data.map Char.toLower⟩

/-- First binding of a field path in the metadata record (`metadata[fieldName]`). -/
def lookupMeta : List (String × FieldMeta) → String → Option FieldMeta
  | [], _ => none
  | (k', m) :: ms, k => if k' = k then some m else lookupMeta ms k

/-- Lines 266-285: the description of one child field of an
`array_of_objects` entry — `childMeta?.description || childName`, then a
type-dispatched format suffix (note: no `array` case here, unlike the
top-level dispatch). -/
def childBase (childName : String) (m : FieldMeta) : String :=
  match m.description with
  | some d => if d = "" then childName else d
  | none => childName

/-- Lines 266-285: the description of one child field of an
`array_of_objects` entry, with its type-dispatched format suffix. -/
def childDescribe (childName : String) (m : FieldMeta) : String :=
  let base := childBase childName m
  match m.type with
  | some t =>
    if t = "" then base
    else
      let ty := jsToLower t
      if ty = "multiple_choice" && m.choices.isSome then
        base ++ " (return in one of the options: " ++
          String.intercalate (", ") (m.choices.getD []) ++ ")"
      else if ty = "date" then base ++ " (return in format YYYY-MM-DD)"
      else if ty = "datetime" then base ++ " (return in format YYYY-MM-DD HH:MM:SS)"
      else if ty = "time" then base ++ " (return in format HH:MM:SS)"
      else if ty = "boolean" then base ++ " (Return in Boolean)"
      else base
  | none => base

/-- Lines 292-315: the enriched value of a non-`array_of_objects` field —
`fieldMeta?.description || value`, then a type-dispatched format suffix
(template literals coerce a non-string base via `String(v)`). -/
def descBase (value : Json) (m : FieldMeta) : Json :=
  match m.description with
  | some d => if d = "" then value else .str d
  | none => value

/-- Lines 292-315: the enriched value of a non-`array_of_objects` field —
its base description with a type-dispatched format suffix (template
literals coerce a non-string base via `String(v)`). -/
def describeField (value : Json) (m : FieldMeta) : Json :=
  let base : Json := descBase value m
  match m.type with
  | some t =>
    if t = "" then base
    else
      let ty := jsToLower t
      if ty = "multiple_choice" && m.choices.isSome then
        .str (jsToString base ++ " (return in one of the options: " ++
          String.intercalate (", ") (m.choices.getD []) ++ ")")
      else if ty = "date" then .str (jsToString base ++ " (return in format YYYY-MM-DD)")
      else if ty = "datetime" then .str (jsToString base ++ " (return in format YYYY-MM-DD HH:MM:SS)")
      else if ty = "time" then .str (jsToString base ++ " (return in format HH:MM:SS)")
      else if ty = "boolean" then .str (jsToString base ++ " (Return in Boolean)")
      else if ty = "array" then .str (jsToString base ++ " (Return in array of value)")
      else base
  | none => base

/-- Is the value a nonempty JS array (`Array.isArray(value) && value.length > 0`)? -/
def isNonEmptyArr : Json → Bool
  | .arr (_ :: _) => true
  | _ => false

/-- Lines 258-287: the synthesized object schema for an `array_of_objects`
field, collected from every metadata entry keyed `<fieldName>[].<child>`
in metadata order. -/
def buildChildSchema (metadata : List (String × FieldMeta)) (fieldName : String) :
    List (String × Json) :=
  let childPre := fieldName ++ "[]."
  metadata.foldl (fun acc km =>
    if km.1.startsWith childPre then
      setField acc (km.1.drop childPre.length)
        (.str (childDescribe (km.1.drop childPre.length) km.2))
    else acc) []

/-- Lines 252-316: the enriched value stored under one top-level schema key.
The `array_of_objects` special case applies only on an exact (un-lowercased)
type match together with a nonempty-array schema value. -/
def enhanceField (metadata : List (String × FieldMeta)) (fieldName : String) (value : Json) :
    Json :=
  match lookupMeta metadata fieldName with
  | some m =>
    if m.type = some ("array_of_objects") && isNonEmptyArr value then
      let objectSchema := buildChildSchema metadata fieldName
      if objectSchema.isEmpty then value else .arr [.obj objectSchema]
    else describeField value m
  | none => describeField value {}

/-- Lines 249-319: the enhanced schema.  With metadata present the JS loop
assigns `enhancedSchema[fieldName]` once per entry of
`Object.entries(expectedSchema)`; a JS object's keys are distinct, so
assignment into an initially empty object is a per-entry map.  Without
metadata the schema's entries are copied verbatim (`Object.assign`). -/
def buildEnhancedSchema (expectedSchema : Json) (metadata : List (String × FieldMeta)) :
    List (String × Json) :=
  match expectedSchema with
  | .obj fs =>
    if metadata.isEmpty then fs
    else fs.map (fun kv => (kv.1, enhanceField metadata kv.1 kv.2))
  | _ => []

/-- The closing instruction block (lines 324-333), verbatim. -/
def instructionsBlock : String :=
  "\n\nInstructions:\n1. Carefully analyze the document image/content\n2. Extract the requested information according to the schema\n3. Ensure all extracted values match their specified types\n4. For fields with choices, only use values from the provided list\n5. For numeric fields with decimal places, format accordingly\n6. Return ONLY valid JSON matching the schema structure\n7. If a field cannot be found, use null or an appropriate default value\n\nReturn the extracted data as JSON:"

/-- `buildExtractionPrompt` (lines 237-336).  The `document` parameter is
accepted but — exactly as in the source — never rendered into the prompt. -/
def buildExtractionPrompt (doc : DocumentData) (expectedSchema : Json)
    (metadata : List (String × FieldMeta)) (documentType : Option String) : String :=
  let base := "You are a document extraction assistant. Extract information from the provided document according to the specified schema."
  let withType :=
    match documentType with
    | some dt => if dt = "" then base else base ++ "\n\nDocument Type: " ++ dt
    | none => base
  let _ := doc
  withType ++ "\n\nExpected Output Schema (field values show what to extract):\n" ++
    jsonStringify (.obj (buildEnhancedSchema expectedSchema metadata)) ++ instructionsBlock

/-! ## LLMClient and PageProcessor (llmService.ts lines 99-192) -/

/-- The provider's reply object: the answer may sit under `thinking` or
`response` (line 184). -/
structure ProviderReply where
  thinking : Option String := none
  response : Option String := none
deriving Repr

/-- `callLLM` (lines 172-192), with the axios POST abstracted as `post` —
a `.error e` result models the HTTP call throwing the value `e`
(network error, timeout, non-2xx).  The answer is `result.thinking ||
result.response`; when that is falsy the method throws
`Error('No response or thinking field found in LLM output')`. -/
def callLLM (post : String → List String → Except Json ProviderReply)
    (prompt : String) (images : List String) : Except Json String :=
  match post prompt images with
  | .error e => .error e
  | .ok r =>
    let t := r.thinking.getD ("")
    if t ≠ "" then .ok t
    else
      let resp := r.response.getD ("")
      if resp ≠ "" then .ok resp
      else .error (.err ("No response or thinking field found in LLM output"))

/-- A rasterized page (pdfProcessor.ts lines 6-9). -/
structure PDFPage where
  pageNumber : Nat
  imageBase64 : String
deriving Repr, DecidableEq

/-- Lines 143-150: the page-scoped document, its description extended with
the page position sentence and the accumulated previous-pages context. -/
def enhancePageDoc (doc : DocumentData) (pageNumber totalPages : Nat)
    (previousPagesContext : List String) : DocumentData :=
  let contextInfo :=
    if previousPagesContext.length > 0 then
      "\n\nContext from previous pages:\n" ++ String.intercalate ("\n\n") previousPagesContext
    else ""
  { doc with description := doc.description ++ "\n\nThis is page " ++ toString pageNumber ++
      " of " ++ toString totalPages ++ " in the PDF document." ++ contextInfo }

/-- The prompt built for one PDF page (line 152). -/
def pagePrompt (doc : DocumentData) (expectedSchema : Json)
    (metadata : List (String × FieldMeta)) (documentType : Option String)
    (page : PDFPage) (totalPages : Nat) (previousPagesContext : List String) : String :=
  buildExtractionPrompt (enhancePageDoc doc page.pageNumber totalPages previousPagesContext)
    expectedSchema metadata documentType

/-- `processSinglePage` (lines 132-170).  `jsonParse` abstracts the builtin
`JSON.parse`: `.error m` models a thrown `SyntaxError` with message `m`.
The source's `try` block covers both the LLM call and the parse, so a
thrown transport/availability error is caught by the same
`catch (parseError)` and stored in `raw` exactly like a parse failure. -/
def processSinglePage (post : String → List String → Except Json ProviderReply)
    (jsonParse : String → Except String Json) (page : PDFPage) (totalPages : Nat)
    (doc : DocumentData) (expectedSchema : Json) (metadata : List (String × FieldMeta))
    (previousPagesContext : List String) (documentType : Option String) : Json :=
  let prompt := pagePrompt doc expectedSchema metadata documentType page totalPages
    previousPagesContext
  match callLLM post prompt [page.imageBase64] with
  | .ok llmResponse =>
    match jsonParse llmResponse with
    | .ok pageData => mkDataPage page.pageNumber pageData
    | .error m => mkErrorPage page.pageNumber ("Failed to parse response") (.err m)
  | .error e => mkErrorPage page.pageNumber ("Failed to parse response") e

/-- The sequential page loop of `processAllPages` (lines 106-129), threading
the `previousPagesContext` accumulator: a page whose result carries truthy
`data` appends `"Page <n>: <stringified data>"`. -/
def processAllPagesAux (post : String → List String → Except Json ProviderReply)
    (jsonParse : String → Except String Json) (totalPages : Nat) (doc : DocumentData)
    (expectedSchema : Json) (metadata : List (String × FieldMeta))
    (documentType : Option String) : List PDFPage → List String → List Json
  | [], _ => []
  | page :: rest, ctx =>
    let pr := processSinglePage post jsonParse page totalPages doc expectedSchema metadata
      ctx documentType
    let ctx' :=
      match getField pr ("data") with
      | some d =>
        if truthy d then ctx ++ [("Page " ++ toString page.pageNumber ++ ": " ++ jsonStringify d)]
        else ctx
      | none => ctx
    pr :: processAllPagesAux post jsonParse totalPages doc expectedSchema metadata documentType
      rest ctx'

/-- `processAllPages` (lines 99-130). -/
def processAllPages (post : String → List String → Except Json ProviderReply)
    (jsonParse : String → Except String Json) (pages : List PDFPage) (doc : DocumentData)
    (expectedSchema : Json) (metadata : List (String × FieldMeta))
    (documentType : Option String) : List Json :=
  processAllPagesAux post jsonParse pages.length doc expectedSchema metadata documentType
    pages []

/-- The message of a caught value:
`error instanceof Error ? error.message : 'Unknown error'`. -/
def jsErrMessage : Json → String
  | .err m => m
  | _ => "Unknown error"

/-- `extractFromPDF` (lines 78-97).  `rasterized` stands for the awaited
result of `this.pdfProcessor.convertPDFToImages(document.filedata)`
(modelled separately below): a `.error e` rasterization failure is rewrapped
by the surrounding `catch`.  The page loop and the merge are total, so they
add no failure case of their own. -/
def extractFromPDF (post : String → List String → Except Json ProviderReply)
    (jsonParse : String → Except String Json) (rasterized : Except Json (List PDFPage))
    (doc : DocumentData) (expectedSchema : Json) (metadata : List (String × FieldMeta))
    (documentType : Option String) : Except String Json :=
  match rasterized with
  | .error e => .error ("PDF extraction failed: " ++ jsErrMessage e)
  | .ok pages =>
    .ok (combinePageResults
      (processAllPages post jsonParse pages doc expectedSchema metadata documentType)
      expectedSchema)

/-- `extractFromImage` (lines 53-76): the single-image path.  A parse failure
here is returned inline as `{ error, raw }` with `raw` the reply text; a
thrown transport/availability error is rewrapped and rethrown. -/
def extractFromImage (post : String → List String → Except Json ProviderReply)
    (jsonParse : String → Except String Json) (doc : DocumentData) (expectedSchema : Json)
    (metadata : List (String × FieldMeta)) (documentType : Option String) :
    Except String Json :=
  let prompt := buildExtractionPrompt doc expectedSchema metadata documentType
  match callLLM post prompt (if doc.filedata = "" then [] else [doc.filedata]) with
  | .ok response =>
    match jsonParse response with
    | .ok j => .ok j
    | .error _ =>
      .ok (.obj [("error", .str ("Failed to parse LLM response as JSON")), ("raw", .str response)])
  | .error e => .error ("Image extraction failed: " ++ jsErrMessage e)

/-! ## PageRasterizer: pdfProcessor.ts -/

/-- `isPDF` (pdfProcessor.ts lines 47-50). -/
def isPDF (filetype : String) : Bool :=
  let normalizedType := jsToLower filetype
  normalizedType == "pdf" || normalizedType == "application/pdf"

/-- `extractSinglePage` (pdfProcessor.ts lines 97-115), with the `pdf2pic`
converter abstracted as `conv`: `.error e` models the conversion call
throwing, `.ok none` a result without a `base64` field, `.ok (some b)` a
result carrying `b` (the guard `pageResult && pageResult.base64` also
rejects an empty string).  Every failure form yields `null`. -/
def extractSinglePage (conv : Nat → Except Json (Option String)) (pageNumber : Nat) :
    Option PDFPage :=
  match conv pageNumber with
  | .ok (some b64) => if b64 = "" then none else some ⟨pageNumber, b64⟩
  | .ok none => none
  | .error _ => none

/-- The `while (hasMorePages)` probe loop of `extractAllPages` (lines 67-85),
structurally recursive on an explicit bound `fuel` (the JS loop is
unbounded; each theorem below supplies enough fuel to cover every page the
converter can render). -/
def extractAllPagesAux (conv : Nat → Except Json (Option String)) :
    Nat → Nat → List PDFPage
  | 0, _ => []
  | fuel + 1, currentPageNumber =>
    match extractSinglePage conv currentPageNumber with
    | some page => page :: extractAllPagesAux conv fuel (currentPageNumber + 1)
    | none => []

/-- `extractAllPages` (lines 67-85): probe pages starting at 1. -/
def extractAllPages (conv : Nat → Except Json (Option String)) (fuel : Nat) : List PDFPage :=
  extractAllPagesAux conv fuel 1

/-- `convertPDFToImages` (lines 31-45): its `catch` would rewrap an error
from `extractAllPages` as `Failed to process PDF: ...`, but the page loop
swallows every per-page failure, so the conversion always succeeds
(temp-file bookkeeping is I/O and not modelled). -/
def convertPDFToImages (conv : Nat → Except Json (Option String)) (fuel : Nat) :
    Except String (List PDFPage) :=
  .ok (extractAllPages conv fuel)

/-! ## Spec-side definitions (for the refinement claims) -/

/-- Follows the spec's words (§4.5): one page's contribution for a key is
the value of the key from the page's `data` when present, non-null and
non-empty-string.  Spec-side counterpart of `collectOne`, which reads from
`pageResult.data || pageResult` instead. -/
def specCollectOne (key : String) (pr : Json) : Option Json :=
  match getField pr ("data") with
  | some d =>
    match getField d key with
    | some Json.null => none
    | some (Json.str s) => if s = "" then none else some (Json.str s)
    | some v => some v
    | none => none
  | none => none

/-- Follows the spec's words (§4.5): collect, in page order, every page's
contribution from its `data`. -/
def specCollectValues (prs : List Json) (key : String) : List Json :=
  prs.filterMap (specCollectOne key)

/-- Follows the spec's words (§4.5): the per-key merge rule dispatched on
the expected schema's declared shape — array: one-level-flattened
concatenation; object: shallow page-order merge, later pages overwriting;
string: collected values joined with a single space; number and any other
scalar: last collected value; no collected values: the schema's own
placeholder. -/
def specMergeValue (schemaVal : Json) (values : List Json) : Json :=
  match values with
  | [] => schemaVal
  | _ =>
    match schemaVal with
    | .arr _ => .arr (values.flatMap (fun v => match v with | .arr xs => xs | x => [x]))
    | .obj _ =>
      .obj (values.foldl (fun acc v =>
        match v with
        | .obj fs => fs.foldl (fun a kv => setField a kv.1 kv.2) acc
        | _ => acc) [])
    | .str _ => .str (String.intercalate (" ") (values.map jsElemToString))
    | .num _ => (values.getLast?).getD .null
    | _ => (values.getLast?).getD .null

/-- Follows the spec's words (§4.5): the ≥2-page merge — per top-level
schema key, `specMergeValue` over `specCollectValues`, with `_pageResults`
and `_totalPages` attached. -/
def specCombine (prs : List Json) (schema : Json) : Json :=
  .obj (setField (setField
    (buildCombined
      (fun key => specMergeValue ((getField schema key).getD .null) (specCollectValues prs key))
      (objKeys schema))
    ("_pageResults") (.arr prs)) ("_totalPages") (.num prs.length))

/-- Is the value a modelled JS `Error` object (not a JSON value)? -/
def isErrVal : Json → Bool
  | .err _ => true
  | _ => false

/-! ## Containment predicate and concrete probe values -/

/-- String containment: the needle's characters appear contiguously inside
the haystack. -/
def strContains (hay needle : String) : Prop :=
  needle.data <:+: hay.data

instance (hay needle : String) : Decidable (strContains hay needle) :=
  List.decidableInfix needle.data hay.data

/-- Executable containment check over character lists (evaluates cheaply by
reduction, unlike the `Decidable` instance above, whose nested instance tree
is too deep to reduce on long haystacks). -/
def containsB (needle : List Char) : List Char → Bool
  | [] => needle.isEmpty
  | c :: t => needle.isPrefixOf (c :: t) || containsB needle t

/-- A provider whose reply for page image `i2` is parseable JSON and whose
reply for any other call is the non-JSON text `not json` (C3 probe). -/
def c3post : String → List String → Except Json ProviderReply :=
  fun _ imgs =>
    if imgs = [("i2")] then .ok { response := some ("\x7b\x7d") }
    else .ok { response := some ("not json") }

/-- The behaviour of `JSON.parse` on the replies `c3post` produces: `\x7b\x7d`
parses to the empty object, anything else throws a `SyntaxError` with
message `Unexpected token`. -/
def c3parse : String → Except String Json :=
  fun s => if s = "\x7b\x7d" then .ok (.obj []) else .error ("Unexpected token")

/-- A provider whose POST always fails with a network error (C4 probe). -/
def c4post : String → List String → Except Json ProviderReply :=
  fun _ _ => .error (.err ("Network Error"))

/-- A `JSON.parse` stub for runs whose replies never parse (never reached
under `c4post`, which fails before any reply exists). -/
def c4parse : String → Except String Json :=
  fun _ => .error ("Unexpected token")

/-- A page converter that throws on every page - an input that cannot be
decoded as a PDF at all (C5 probe). -/
def c5corrupt : Nat → Except Json (Option String) :=
  fun _ => .error (.err ("bad pdf"))

/-- A page converter that renders pages 1..3 and reports no result beyond
them - a well-formed three-page PDF (C5 probe). -/
def c5good : Nat → Except Json (Option String) :=
  fun n => if n ≤ 3 then .ok (some ("img")) else .ok none

/-- Two PageResults: an errored page, then a page extracting `error: ok`
(C2 probe). -/
def c2pages : List Json :=
  [mkErrorPage 1 ("Failed to parse response") (.err ("Unexpected token")),
   mkDataPage 2 (.obj [(("error"), .str ("ok"))])]

/-- A schema whose only top-level key is named `error` (C2 probe). -/
def c2schema : Json := .obj [(("error"), .str (""))]

/-- A schema whose only top-level key holds a nested object (C7 probe). -/
def c7schema : Json := .obj [("a", .obj [("b", .str (""))])]

/-- Metadata carrying a `date` entry for the nested field path `a.b`
(C7 probe). -/
def c7md : List (String × FieldMeta) := [(("a.b"), { type := some ("date") })]

/-- A two-key schema probing the prompt enrichment (C7 witness). -/
def c7wschema : Json := .obj [(("d"), .str ("")), (("c"), .str (""))]

/-- Metadata typing `d` as a date and `c` as a multiple choice (C7 witness). -/
def c7wmd : List (String × FieldMeta) :=
  [(("d"), { type := some ("date") }),
   (("c"), { type := some ("multiple_choice"), choices := some [("yes"), ("no")] })]

/-! ## Helper lemmas -/

/-- Setting a key that is absent from the association list appends the binding. -/
theorem setField_eq_append (fs : List (String × Json)) (k : String) (v : Json)
    (h : k ∉ fs.map Prod.fst) : setField fs k v = fs ++ [(k, v)] := by
  induction fs with
  | nil => rfl
  | cons kv fs ih =>
    obtain ⟨k', v'⟩ := kv
    simp only [List.map_cons, List.mem_cons, not_or] at h
    simp only [setField, List.cons_append]
    rw [if_neg (fun he => h.1 he.symm), ih h.2]

/-- Folding key-by-key assignment of distinct fresh keys into an accumulator
appends one binding per key. -/
theorem foldl_setField_eq_map (f : String → Json) (ks : List String) :
    ∀ acc : List (String × Json), ks.Nodup →
      (∀ k ∈ ks, k ∉ acc.map Prod.fst) →
      ks.foldl (fun a k => setField a k (f k)) acc = acc ++ ks.map (fun k => (k, f k)) := by
  induction ks with
  | nil => intro acc _ _; simp
  | cons k ks ih =>
    intro acc hnd hfresh
    have hfresh' : ∀ k' ∈ ks, k' ∉ (acc ++ [(k, f k)]).map Prod.fst := by
      intro k' hk'
      have h1 : k' ∉ acc.map Prod.fst := hfresh k' (List.mem_cons_of_mem k hk')
      have h2 : k' ≠ k := fun he => (List.nodup_cons.mp hnd).1 (he ▸ hk')
      simp [h1, h2]
    rw [List.foldl_cons, setField_eq_append acc k (f k) (hfresh k (List.mem_cons_self k ks)),
      ih (acc ++ [(k, f k)]) (List.nodup_cons.mp hnd).2 hfresh', List.append_assoc]
    simp

/-- A key listed among an association list's keys has a first binding. -/
theorem lookupField_eq_some_of_mem_keys (fs : List (String × Json)) (k : String)
    (h : k ∈ fs.map Prod.fst) : ∃ v, lookupField fs k = some v := by
  induction fs with
  | nil => simp at h
  | cons kv fs ih =>
    obtain ⟨k', v'⟩ := kv
    by_cases he : k' = k
    · exact ⟨v', by simp [lookupField, he]⟩
    · simp only [List.map_cons, List.mem_cons] at h
      rcases h with h | h
    
      · exact absurd h.symm he
      · obtain ⟨v, hv⟩ := ih h
        exact ⟨v, by simp [lookupField, he, hv]⟩

/-- A successful first-binding lookup is a membership. -/
theorem mem_of_lookupField_eq_some (fs : List (String × Json)) (k : String) (v : Json)
    (h : lookupField fs k = some v) : (k, v) ∈ fs := by
  induction fs with
  | nil => simp [lookupField] at h
  | cons kv fs ih =>
    obtain ⟨k', v'⟩ := kv
    by_cases he : k' = k
    · rw [lookupField, if_pos he] at h
      obtain rfl : v' = v := Option.some.inj h
      subst he
      exact List.mem_cons_self _ _
    · rw [lookupField, if_neg he] at h
      exact List.mem_cons_of_mem _ (ih h)

/-- Pointwise equal filter functions give equal `filterMap`s. -/
theorem filterMap_ext_mem {α β : Type} (f g : α → Option β) (l : List α)
    (h : ∀ x ∈ l, f x = g x) : l.filterMap f = l.filterMap g := by
  induction l with
  | nil => rfl
  | cons x xs ih =>
    rw [List.filterMap_cons, List.filterMap_cons, h x (List.mem_cons_self x xs),
      ih (fun y hy => h y (List.mem_cons_of_mem x hy))]

/-- Folding pointwise-equal per-key assignments gives equal results. -/
theorem foldl_setField_congr (f g : String → Json) (ks : List String)
    (h : ∀ k ∈ ks, f k = g k) :
    ∀ acc : List (String × Json),
      ks.foldl (fun a k => setField a k (f k)) acc
        = ks.foldl (fun a k => setField a k (g k)) acc := by
  induction ks with
  | nil => intro _; rfl
  | cons k ks ih =>
    intro acc
    rw [List.foldl_cons, List.foldl_cons, h k (List.mem_cons_self k ks)]
    exact ih (fun k' hk' => h k' (List.mem_cons_of_mem k hk')) _

/-- A wrapper with present-and-truthy `data` dereferences to that data. -/
theorem pageDataOf_eq_data (pr d : Json) (hd : getField pr ("data") = some d)
    (ht : truthy d = true) : pageDataOf pr = d := by
  simp [pageDataOf, hd, ht]

/-- On a page with present-and-truthy `data`, the code's collector and the
spec's data-only collector agree. -/
theorem collectOne_eq_spec (key : String) (pr : Json) (h : hasTruthyData pr = true) :
    collectOne key pr = specCollectOne key pr := by
  unfold hasTruthyData at h
  rcases hg : getField pr ("data") with _ | d
  · rw [hg] at h; exact absurd h (by simp)
  · rw [hg] at h
    unfold collectOne specCollectOne
    rw [hg, pageDataOf_eq_data pr d hg h]

/-- On pages that all carry present-and-truthy `data`, the collected value
lists agree with the spec's. -/
theorem collectValues_eq_spec (key : String) (prs : List Json)
    (h : ∀ pr ∈ prs, hasTruthyData pr = true) :
    collectValues prs key = specCollectValues prs key :=
  filterMap_ext_mem _ _ prs (fun pr hpr => collectOne_eq_spec key pr (h pr hpr))

/-- On a non-`err` schema value the code's dispatch equals the spec's. -/
theorem mergeValue_eq_spec (v : Json) (values : List Json) (h : isErrVal v = false) :
    mergeValue v values = specMergeValue v values := by
  cases values with
  | nil => cases v <;> rfl
  | cons x xs =>
    cases v
    case err m => exact absurd h (by simp [isErrVal])
    all_goals rfl

/-- Pointwise-equal per-key value functions build equal combined lists. -/
theorem buildCombined_congr (f g : String → Json) (ks : List String)
    (h : ∀ k ∈ ks, f k = g k) : buildCombined f ks = buildCombined g ks :=
  foldl_setField_congr f g ks h []

/-- Over distinct keys, the assignment loop is a per-key map. -/
theorem buildCombined_eq_map (f : String → Json) (ks : List String) (hnd : ks.Nodup) :
    buildCombined f ks = ks.map (fun k => (k, f k)) := by
  have := foldl_setField_eq_map f ks [] hnd (by simp)
  simpa [buildCombined] using this

/-- Keys of a per-key map are the key list itself. -/
theorem map_fst_map_pair (f : String → Json) (ks : List String) :
    (ks.map (fun k => (k, f k))).map Prod.fst = ks := by
  induction ks with
  | nil => rfl
  | cons k ks ih => simp [ih]

/-! ## Claims -/

/-- C1: for every ordered list of two or more PageResults, each carrying
present-and-truthy parsed `data`, and every expected schema object with
JSON field values, the merge output is computed per top-level schema key by
collecting, in page order, each page's value of the key that is present,
non-null and non-empty-string, then dispatching on the schema's declared
shape for the key — array: one-level-flattened concatenation; string:
collected values joined with a single space in page order; number (and
boolean/null): last collected value; object: shallow page-order merge with
later pages overwriting; no collected values: the schema's own placeholder —
plus `_pageResults` and `_totalPages`; and in particular the spec's
two-page `items`/`note`/`count` example merges to exactly the stated
result. -/
theorem c1_merge_dispatch_and_example :
    (∀ (prs : List Json) (sf : List (String × Json)),
      2 ≤ prs.length →
      (∀ kv ∈ sf, isErrVal kv.2 = false) →
      (∀ pr ∈ prs, hasTruthyData pr = true) →
      combinePageResults prs (.obj sf) = specCombine prs (.obj sf))
    ∧ combinePageResults
        [mkDataPage 1 (.obj [("items", .arr [.str ("x")]), ("note", .str ("hello")),
           ("count", .num 1)]),
         mkDataPage 2 (.obj [("items", .arr [.str ("y")]), ("note", .str ("world")),
           ("count", .num 2)])]
        (.obj [("items", .arr []), ("note", .str ("")), ("count", .num 0)])
      = .obj [("items", .arr [.str ("x"), .str ("y")]), ("note", .str ("hello world")),
         ("count", .num 2),
         ("_pageResults", .arr
           [mkDataPage 1 (.obj [("items", .arr [.str ("x")]), ("note", .str ("hello")),
              ("count", .num 1)]),
            mkDataPage 2 (.obj [("items", .arr [.str ("y")]), ("note", .str ("world")),
              ("count", .num 2)])]),
         ("_totalPages", .num 2)] := by
  constructor
  · intro prs sf hlen hkv hdata
    obtain ⟨p1, prs1, rfl⟩ : ∃ x xs, prs = x :: xs := by
      cases prs with
      | nil => simp at hlen
      | cons a as => exact ⟨a, as, rfl⟩
    obtain ⟨p2, prs2, rfl⟩ : ∃ x xs, prs1 = x :: xs := by
      cases prs1 with
      | nil => simp at hlen
      | cons a as => exact ⟨a, as, rfl⟩
    show combineMulti (p1 :: p2 :: prs2) (.obj sf) = specCombine (p1 :: p2 :: prs2) (.obj sf)
    have hpt : ∀ k ∈ objKeys (Json.obj sf),
        mergeValue ((getField (Json.obj sf) k).getD .null) (collectValues (p1 :: p2 :: prs2) k)
          = specMergeValue ((getField (Json.obj sf) k).getD .null)
              (specCollectValues (p1 :: p2 :: prs2) k) := by
      intro k hk
      obtain ⟨v, hv⟩ := lookupField_eq_some_of_mem_keys sf k (by simpa [objKeys] using hk)
      have herr : isErrVal v = false := hkv (k, v) (mem_of_lookupField_eq_some sf k v hv)
      have hg : getField (Json.obj sf) k = some v := hv
      rw [collectValues_eq_spec k _ hdata, hg]
      exact mergeValue_eq_spec v _ herr
    unfold combineMulti specCombine
    rw [buildCombined_congr
      (fun key => mergeValue ((getField (Json.obj sf) key).getD .null)
        (collectValues (p1 :: p2 :: prs2) key))
      (fun key => specMergeValue ((getField (Json.obj sf) key).getD .null)
        (specCollectValues (p1 :: p2 :: prs2) key))
      (objKeys (Json.obj sf)) hpt]
  · rfl

/-- C1 witness: the dispatch theorem applied to two concrete dataful pages
and a one-key numeric schema. -/
theorem c1_witness :
    combinePageResults [mkDataPage 1 (.obj [("a", .num 5)]), mkDataPage 2 (.obj [("a", .num 7)])]
        (.obj [("a", .num 0)])
      = specCombine [mkDataPage 1 (.obj [("a", .num 5)]), mkDataPage 2 (.obj [("a", .num 7)])]
        (.obj [("a", .num 0)]) :=
  c1_merge_dispatch_and_example.1 _ _ (by simp)
    (by intro kv hkv; simp at hkv; subst hkv; rfl)
    (by intro pr hpr; simp at hpr; rcases hpr with rfl | rfl <;> rfl)

/-- C6 counterexample: a single PageResult whose parse succeeded with the
falsy value `0` makes the merge return the wrapper object, although the
claim (whose only wrapper case is "when `data` is absent") requires the
page's `data` value `0` itself. -/
theorem c6_single_page_falsy_cex :
    combinePageResults [mkDataPage 1 (.num 0)] (.obj [])
      = mkDataPage 1 (.num 0)
    ∧ mkDataPage 1 (.num 0) ≠ Json.num 0 :=
  ⟨rfl, fun h => Json.noConfusion h⟩

/-- C6 (amended): merging no PageResults returns the expected schema
unchanged; merging exactly one PageResult returns that page's `data` as-is
when the `data` field is present and truthy, and the PageResult wrapper
object itself when `data` is absent or falsy; no `_pageResults` or
`_totalPages` fields are attached in either single-page case. -/
theorem c6_single_page_passthrough :
    (∀ schema : Json, combinePageResults [] schema = schema)
    ∧ (∀ (schema : Json) (n : Nat) (d : Json), truthy d = true →
        combinePageResults [mkDataPage n d] schema = d)
    ∧ (∀ (schema : Json) (n : Nat) (d : Json), truthy d = false →
        combinePageResults [mkDataPage n d] schema = mkDataPage n d)
    ∧ (∀ (schema : Json) (n : Nat) (msg : String) (r : Json),
        combinePageResults [mkErrorPage n msg r] schema = mkErrorPage n msg r) := by
  refine ⟨fun schema => rfl, fun schema n d h => ?_, fun schema n d h => ?_,
    fun schema n msg r => rfl⟩
  · show pageDataOf (mkDataPage n d) = d
    simp [pageDataOf, mkDataPage, getField, lookupField, h]
  · show pageDataOf (mkDataPage n d) = mkDataPage n d
    simp [pageDataOf, mkDataPage, getField, lookupField, h]

/-- C6 witness: the amended theorem applied to an empty page list and to a
one-page list with truthy object data. -/
theorem c6_witness :
    combinePageResults [] (.obj [("a", .num 1)]) = .obj [("a", .num 1)]
    ∧ combinePageResults [mkDataPage 1 (.obj [("a", .num 1)])] (.obj [])
        = .obj [("a", .num 1)] :=
  ⟨c6_single_page_passthrough.1 _, c6_single_page_passthrough.2.1 _ 1 _ rfl⟩

/-- C8: `isDocumentPDF` (source method `isPDF`) returns true exactly when
the lower-cased file type equals `pdf` or `application/pdf`; in particular
it accepts `PDF` and `Application/Pdf` and rejects `jpg` and `pdf `
(trailing space). -/
theorem c8_isPDF_iff :
    (∀ s : String,
      isPDF s = true ↔ (jsToLower s = "pdf" ∨ jsToLower s = "application/pdf"))
    ∧ isPDF ("PDF") = true ∧ isPDF ("Application/Pdf") = true
    ∧ isPDF ("jpg") = false ∧ isPDF ("pdf ") = false := by
  refine ⟨fun s => ?_, by decide, by decide, by decide, by decide⟩
  simp [isPDF]

/-- C8 witness: the equivalence applied at `application/PDF`. -/
theorem c8_witness : isPDF ("application/PDF") = true :=
  (c8_isPDF_iff.1 ("application/PDF")).mpr (Or.inr (by decide))

/-- Keys of the combined object after the two trailing reserved-name
assignments: the schema keys followed by `_pageResults` and `_totalPages`. -/
theorem keys_after_reserved (f : String → Json) (ks : List String) (prsArr tot : Json)
    (hnd : ks.Nodup) (h1 : ("_pageResults") ∉ ks) (h2 : ("_totalPages") ∉ ks) :
    (setField (setField (buildCombined f ks) ("_pageResults") prsArr)
        ("_totalPages") tot).map Prod.fst
      = ks ++ [("_pageResults"), ("_totalPages")] := by
  have k1 := map_fst_map_pair f ks
  have e2 : setField (buildCombined f ks) ("_pageResults") prsArr
      = ks.map (fun k => (k, f k)) ++ [(("_pageResults"), prsArr)] := by
    rw [buildCombined_eq_map f ks hnd]
    exact setField_eq_append _ _ _ (by rw [k1]; exact h1)
  have e3 : setField (setField (buildCombined f ks) ("_pageResults") prsArr)
        ("_totalPages") tot
      = ks.map (fun k => (k, f k)) ++ [(("_pageResults"), prsArr)]
        ++ [(("_totalPages"), tot)] := by
    rw [e2]
    refine setField_eq_append _ _ _ ?_
    rw [List.map_append, k1]
    simp only [List.map_cons, List.map_nil, List.mem_append, List.mem_singleton]
    rintro (h | h)
    · exact h2 h
    · exact absurd h (by decide)
  rw [e3, List.map_append, List.map_append, k1]
  simp

/-- C9: in the single-page merge case, a sole PageResult whose parsed `data`
is one of the falsy JSON values `null`, `false`, `0`, `""` makes the merge
return the entire PageResult wrapper `{page, data}` — which differs from the
parsed data value — even though parsing succeeded. -/
theorem c9_single_page_falsy_wrapper :
    ∀ (schema : Json) (n : Nat) (d : Json),
      (d = Json.null ∨ d = Json.bool false ∨ d = Json.num 0 ∨ d = Json.str ("")) →
      combinePageResults [mkDataPage n d] schema = mkDataPage n d
      ∧ mkDataPage n d ≠ d := by
  intro schema n d h
  have ht : truthy d = false := by
    rcases h with rfl | rfl | rfl | rfl <;> rfl
  constructor
  · show pageDataOf (mkDataPage n d) = mkDataPage n d
    simp [pageDataOf, mkDataPage, getField, lookupField, ht]
  · rcases h with rfl | rfl | rfl | rfl <;> exact fun he => Json.noConfusion he

/-- C9 witness: the theorem applied at `data = null` against an empty schema. -/
theorem c9_witness :
    combinePageResults [mkDataPage 1 Json.null] (.obj []) = mkDataPage 1 Json.null :=
  (c9_single_page_falsy_wrapper (.obj []) 1 Json.null (Or.inl rfl)).1

/-- C10: for every ≥2-page merge against a schema object with distinct keys
not using the two reserved names, the top-level keys of the combined result
are exactly the schema's keys followed by `_pageResults` and `_totalPages`
(so keys extracted by a page but undeclared in the schema are dropped),
while the single-page passthrough returns the page's truthy `data` itself,
preserving all of its keys. -/
theorem c10_combined_keys :
    (∀ (prs : List Json) (sf : List (String × Json)),
      2 ≤ prs.length → (sf.map Prod.fst).Nodup →
      ("_pageResults") ∉ sf.map Prod.fst → ("_totalPages") ∉ sf.map Prod.fst →
      objKeys (combinePageResults prs (.obj sf))
        = sf.map Prod.fst ++ [("_pageResults"), ("_totalPages")])
    ∧ (∀ (schema : Json) (n : Nat) (d : Json), truthy d = true →
        combinePageResults [mkDataPage n d] schema = d) := by
  constructor
  · intro prs sf hlen hnd h1 h2
    obtain ⟨p1, prs1, rfl⟩ : ∃ x xs, prs = x :: xs := by
      cases prs with
      | nil => simp at hlen
      | cons a as => exact ⟨a, as, rfl⟩
    obtain ⟨p2, prs2, rfl⟩ : ∃ x xs, prs1 = x :: xs := by
      cases prs1 with
      | nil => simp at hlen
      | cons a as => exact ⟨a, as, rfl⟩
    show objKeys (combineMulti (p1 :: p2 :: prs2) (.obj sf)) = _
    exact keys_after_reserved _ (objKeys (Json.obj sf)) _ _ hnd h1 h2
  · intro schema n d h
    show pageDataOf (mkDataPage n d) = d
    simp [pageDataOf, mkDataPage, getField, lookupField, h]

/-- C10 witness: the key theorem applied to two concrete pages (one of which
extracts the undeclared keys `b` and `c`) and the passthrough applied to one
page with object data. -/
theorem c10_witness :
    objKeys (combinePageResults
        [mkDataPage 1 (.obj [("a", .num 1), ("b", .num 2)]),
         mkDataPage 2 (.obj [("c", .num 3)])]
        (.obj [("a", .num 0)]))
      = ["a", "_pageResults", "_totalPages"]
    ∧ combinePageResults [mkDataPage 1 (.obj [("c", .num 3)])] (.obj [("a", .num 0)])
      = .obj [("c", .num 3)] :=
  ⟨c10_combined_keys.1 _ _ (by simp) (by simp) (by simp) (by simp),
   c10_combined_keys.2 _ 1 _ rfl⟩

/-! ## Helper lemmas (containment, prompt enrichment, page loop) -/

/-- The executable containment check decides list containment. -/
theorem containsB_iff (needle : List Char) :
    ∀ hay : List Char, containsB needle hay = true ↔ needle <:+: hay := by
  intro hay
  induction hay with
  | nil => simp [containsB, List.infix_nil, List.isEmpty_iff]
  | cons c t ih =>
    simp [containsB, List.infix_cons_iff, List.isPrefixOf_iff_prefix, ih]

/-- Every string contains itself. -/
theorem strContains_refl (s : String) : strContains s s := by
  unfold strContains List.IsInfix
  exact ⟨[], [], by simp⟩

/-- Containment is preserved by appending on the right. -/
theorem strContains_append_left (a b needle : String) (h : strContains a needle) :
    strContains (a ++ b) needle := by
  unfold strContains List.IsInfix at h ⊢
  obtain ⟨s, t, hst⟩ := h
  refine ⟨s, t ++ b.data, ?_⟩
  rw [String.data_append, ← hst]
  simp

/-- Containment is preserved by prepending on the left. -/
theorem strContains_append_right (a b needle : String) (h : strContains b needle) :
    strContains (a ++ b) needle := by
  unfold strContains List.IsInfix at h ⊢
  obtain ⟨s, t, hst⟩ := h
  refine ⟨a.data ++ s, t, ?_⟩
  rw [String.data_append, ← hst]
  simp

/-- Containment is transitive through an intermediate string. -/
theorem strContains_trans (a m needle : String) (h1 : strContains a m)
    (h2 : strContains m needle) : strContains a needle :=
  List.IsInfix.trans h2 h1

/-- A quoted string whose text ends in a space-prefixed marker contains the
marker. -/
theorem strContains_quoted (s needle : String) (pre : List Char)
    (h : s.data = pre ++ ' ' :: needle.data) :
    strContains ("\"" ++ s ++ "\"") needle := by
  unfold strContains List.IsInfix
  refine ⟨("\"").data ++ pre ++ [' '], ("\"").data, ?_⟩
  rw [String.data_append, String.data_append, h]
  simp

/-- A member of an object's field list surfaces, quoted-key first, in the
rendered member list. -/
theorem stringifyFields_contains (fs : List (String × Json)) (k : String) (v : Json)
    (h : (k, v) ∈ fs) :
    strContains (stringifyFields fs) ("\"" ++ k ++ "\":" ++ jsonStringify v) := by
  induction fs with
  | nil => simp at h
  | cons kv fs ih =>
    obtain ⟨k', v'⟩ := kv
    rcases List.mem_cons.mp h with heq | hmem
    · cases heq
      cases fs with
      | nil => exact strContains_refl _
      | cons kv2 fs2 =>
        show strContains
          ("\"" ++ k ++ "\":" ++ jsonStringify v ++ "," ++ stringifyFields (kv2 :: fs2)) _
        apply strContains_append_left
        apply strContains_append_left
        exact strContains_refl _
    · cases fs with
      | nil => simp at hmem
      | cons kv2 fs2 =>
        show strContains
          ("\"" ++ k' ++ "\":" ++ jsonStringify v' ++ "," ++ stringifyFields (kv2 :: fs2)) _
        apply strContains_append_right
        exact ih hmem

/-- Whatever the rendered member list contains, the full prompt contains. -/
theorem prompt_contains_of_fields (doc : DocumentData) (schema : Json)
    (md : List (String × FieldMeta)) (dt : Option String) (needle : String)
    (h : strContains (stringifyFields (buildEnhancedSchema schema md)) needle) :
    strContains (buildExtractionPrompt doc schema md dt) needle := by
  simp only [buildExtractionPrompt]
  apply strContains_append_left
  apply strContains_append_right
  show strContains ("\x7b" ++ stringifyFields (buildEnhancedSchema schema md) ++ "\x7d") needle
  apply strContains_append_left
  apply strContains_append_right
  exact h

/-- A metadata record with a successful lookup is nonempty. -/
theorem lookupMeta_ne_nil (md : List (String × FieldMeta)) (k : String) (m : FieldMeta)
    (h : lookupMeta md k = some m) : md.isEmpty = false := by
  cases md with
  | nil => exact absurd h (by simp [lookupMeta])
  | cons a l => rfl

/-- With nonempty metadata, each schema entry surfaces enriched in the
enhanced schema. -/
theorem mem_buildEnhancedSchema (sf : List (String × Json)) (md : List (String × FieldMeta))
    (k : String) (v : Json) (hmem : (k, v) ∈ sf) (hmd : md.isEmpty = false) :
    (k, enhanceField md k v) ∈ buildEnhancedSchema (.obj sf) md := by
  simp only [buildEnhancedSchema, hmd, Bool.false_eq_true, if_false]
  exact List.mem_map_of_mem _ hmem

/-- Each schema entry surfaces under its own key in the enhanced schema,
whether or not metadata is present. -/
theorem mem_buildEnhancedSchema_any (sf : List (String × Json))
    (md : List (String × FieldMeta)) (k : String) (v : Json) (hmem : (k, v) ∈ sf) :
    ∃ w, (k, w) ∈ buildEnhancedSchema (.obj sf) md := by
  by_cases hmd : md.isEmpty = true
  · exact ⟨v, by simp only [buildEnhancedSchema, hmd, if_true]; exact hmem⟩
  · exact ⟨enhanceField md k v,
      mem_buildEnhancedSchema sf md k v hmem (Bool.not_eq_true _ ▸ hmd)⟩

/-- A field whose metadata type is not literally `array_of_objects` takes the
plain description path. -/
theorem enhanceField_of_typed (md : List (String × FieldMeta)) (k : String) (v : Json)
    (m : FieldMeta) (t : String) (hlm : lookupMeta md k = some m) (ht : m.type = some t)
    (hne : t ≠ ("array_of_objects")) :
    enhanceField md k v = describeField v m := by
  simp only [enhanceField, hlm, ht, hne]
  simp [hne]

/-- A `date`-typed field's enriched value is its base description plus the
date format instruction. -/
theorem describeField_date (v : Json) (m : FieldMeta) (t : String)
    (ht : m.type = some t) (hty : jsToLower t = ("date")) :
    describeField v m
      = .str (jsToString (descBase v m) ++ " (return in format YYYY-MM-DD)") := by
  have ht0 : ¬ t = "" := fun h0 => by rw [h0] at hty; exact absurd hty (by decide)
  simp only [describeField, ht]
  simp [ht0, hty]

/-- A `datetime`-typed field's enriched value carries the datetime format
instruction. -/
theorem describeField_datetime (v : Json) (m : FieldMeta) (t : String)
    (ht : m.type = some t) (hty : jsToLower t = ("datetime")) :
    describeField v m
      = .str (jsToString (descBase v m) ++ " (return in format YYYY-MM-DD HH:MM:SS)") := by
  have ht0 : ¬ t = "" := fun h0 => by rw [h0] at hty; exact absurd hty (by decide)
  simp only [describeField, ht]
  simp [ht0, hty]

/-- A `time`-typed field's enriched value carries the time format
instruction. -/
theorem describeField_time (v : Json) (m : FieldMeta) (t : String)
    (ht : m.type = some t) (hty : jsToLower t = ("time")) :
    describeField v m
      = .str (jsToString (descBase v m) ++ " (return in format HH:MM:SS)") := by
  have ht0 : ¬ t = "" := fun h0 => by rw [h0] at hty; exact absurd hty (by decide)
  simp only [describeField, ht]
  simp [ht0, hty]

/-- A `multiple_choice`-typed field with a choices list carries the joined
options instruction. -/
theorem describeField_mc (v : Json) (m : FieldMeta) (t : String) (cs : List String)
    (ht : m.type = some t) (hty : jsToLower t = ("multiple_choice"))
    (hcs : m.choices = some cs) :
    describeField v m
      = .str (jsToString (descBase v m) ++ " (return in one of the options: "
          ++ String.intercalate (", ") cs ++ ")") := by
  have ht0 : ¬ t = "" := fun h0 => by rw [h0] at hty; exact absurd hty (by decide)
  simp only [describeField, ht]
  simp [ht0, hty, hcs]

/-- The page loop returns exactly one PageResult per input page. -/
theorem processAllPagesAux_length (post : String → List String → Except Json ProviderReply)
    (jsonParse : String → Except String Json) (totalPages : Nat) (doc : DocumentData)
    (schema : Json) (metadata : List (String × FieldMeta)) (docType : Option String)
    (pages : List PDFPage) :
    ∀ ctx : List String,
      (processAllPagesAux post jsonParse totalPages doc schema metadata docType
        pages ctx).length = pages.length := by
  induction pages with
  | nil => intro _; rfl
  | cons p ps ih => intro ctx; simp [processAllPagesAux, ih]

/-- `processAllPages` returns exactly one PageResult per input page. -/
theorem processAllPages_length (post : String → List String → Except Json ProviderReply)
    (jsonParse : String → Except String Json) (pages : List PDFPage) (doc : DocumentData)
    (schema : Json) (metadata : List (String × FieldMeta)) (docType : Option String) :
    (processAllPages post jsonParse pages doc schema metadata docType).length
      = pages.length :=
  processAllPagesAux_length post jsonParse pages.length doc schema metadata docType pages []

/-- The first binding in a left part free of the key is found past it. -/
theorem lookupField_append (A : List (String × Json)) (k : String) (v : Json)
    (B : List (String × Json)) (h : k ∉ A.map Prod.fst) :
    lookupField (A ++ (k, v) :: B) k = some v := by
  induction A with
  | nil => simp [lookupField]
  | cons kv A ih =>
    obtain ⟨k', v'⟩ := kv
    simp only [List.map_cons, List.mem_cons, not_or] at h
    rw [List.cons_append, lookupField, if_neg (fun he => h.1 he.symm)]
    exact ih h.2

/-- The combined object, written as the per-key map followed by the two
reserved bindings. -/
theorem combined_reserved_form (f : String → Json) (ks : List String) (prsArr tot : Json)
    (hnd : ks.Nodup) (h1 : ("_pageResults") ∉ ks) (h2 : ("_totalPages") ∉ ks) :
    setField (setField (buildCombined f ks) ("_pageResults") prsArr) ("_totalPages") tot
      = ks.map (fun k => (k, f k))
        ++ [(("_pageResults"), prsArr), (("_totalPages"), tot)] := by
  have k1 := map_fst_map_pair f ks
  rw [buildCombined_eq_map f ks hnd]
  rw [setField_eq_append (ks.map (fun k => (k, f k))) ("_pageResults") prsArr
    (by rw [k1]; exact h1)]
  rw [setField_eq_append (ks.map (fun k => (k, f k)) ++ [(("_pageResults"), prsArr)])
    ("_totalPages") tot (by
      rw [List.map_append, k1]
      simp only [List.map_cons, List.map_nil, List.mem_append, List.mem_singleton]
      rintro (h | h)
      · exact h2 h
      · exact absurd h (by decide))]
  simp

/-- One errored PageResult contributes nothing for a key that avoids the
wrapper's own field names, on either side of the refinement. -/
theorem collectOne_error_page (key : String) (n : Nat) (msg : String) (r : Json)
    (h1 : key ≠ ("page")) (h2 : key ≠ ("error")) (h3 : key ≠ ("raw")) :
    collectOne key (mkErrorPage n msg r) = none
    ∧ specCollectOne key (mkErrorPage n msg r) = none := by
  have hp : pageDataOf (mkErrorPage n msg r) = mkErrorPage n msg r := rfl
  have e1 : ¬(("page" : String) = key) := fun he => h1 he.symm
  have e2 : ¬(("error" : String) = key) := fun he => h2 he.symm
  have e3 : ¬(("raw" : String) = key) := fun he => h3 he.symm
  have hg : getField (mkErrorPage n msg r) key = none := by
    simp [mkErrorPage, getField, lookupField, e1, e2, e3]
  constructor
  · simp [collectOne, hp, hg]
  · rfl

/-- The probe loop renders a run of consecutive pages and stops at the first
failing probe. -/
theorem extractAllPagesAux_run (conv : Nat → Except Json (Option String)) (b : Nat → String)
    (cnt : Nat) :
    ∀ (start fuel : Nat),
      (∀ n, start ≤ n → n < start + cnt → conv n = .ok (some (b n)) ∧ ¬ b n = "") →
      extractSinglePage conv (start + cnt) = none →
      cnt < fuel →
      extractAllPagesAux conv fuel start
        = (List.range' start cnt).map (fun n => (⟨n, b n⟩ : PDFPage)) := by
  induction cnt with
  | zero =>
    intro start fuel _ hstop hf
    obtain ⟨fuel, rfl⟩ : ∃ m, fuel = m + 1 := ⟨fuel - 1, by omega⟩
    rw [Nat.add_zero] at hstop
    simp [extractAllPagesAux, hstop]
  | succ cnt ih =>
    intro start fuel hok hstop hf
    obtain ⟨fuel, rfl⟩ : ∃ m, fuel = m + 1 := ⟨fuel - 1, by omega⟩
    have h1 : extractSinglePage conv start = some ⟨start, b start⟩ := by
      obtain ⟨hc, hb⟩ := hok start (Nat.le_refl _) (by omega)
      simp [extractSinglePage, hc, hb]
    have hrec := ih (start + 1) fuel
      (fun n hn1 hn2 => hok n (by omega) (by omega))
      (by rw [show start + 1 + cnt = start + (cnt + 1) from by omega]; exact hstop)
      (by omega)
    simp only [extractAllPagesAux, h1]
    rw [hrec, List.range'_succ start cnt 1]
    simp

/-- C2 counterexample: against the schema whose top-level key is named
`error`, a two-page merge whose first page is an errored PageResult takes
that page's own wrapper field `error` — the message `Failed to parse
response` — into the collected values, because `pageResult.data ||
pageResult` substitutes the wrapper object for the absent `data`.  The
spec-side data-only merge yields `ok` alone, so the errored page does
contribute a value, refuting the claim. -/
theorem c2_error_page_leak_cex :
    getField (combinePageResults c2pages c2schema) ("error")
      = some (.str ("Failed to parse response ok"))
    ∧ getField (specCombine c2pages c2schema) ("error") = some (.str ("ok"))
    ∧ combinePageResults c2pages c2schema ≠ specCombine c2pages c2schema := by
  refine ⟨rfl, rfl, fun h => ?_⟩
  have e1 : getField (combinePageResults c2pages c2schema) ("error")
      = some (Json.str ("Failed to parse response ok")) := rfl
  have e2 : getField (specCombine c2pages c2schema) ("error")
      = some (Json.str ("ok")) := rfl
  have hh : getField (combinePageResults c2pages c2schema) ("error")
      = getField (specCombine c2pages c2schema) ("error") :=
    congrArg (fun j => getField j ("error")) h
  rw [e1, e2] at hh
  simp at hh

/-- C2 (amended): in a ≥2-page merge, a PageResult with `error` set (and
`data` absent) contributes no values to any merged schema key whose name is
not `page`, `error` or `raw` — the merge then equals the spec's data-only
merge; schemas using one of those three reserved wrapper field names as a
top-level key can instead receive the errored wrapper's own field, as the
counterexample shows. -/
theorem c2_error_page_isolated :
    ∀ (prs : List Json) (sf : List (String × Json)),
      2 ≤ prs.length →
      (∀ kv ∈ sf, kv.1 ≠ ("page") ∧ kv.1 ≠ ("error") ∧ kv.1 ≠ ("raw")
        ∧ isErrVal kv.2 = false) →
      (∀ pr ∈ prs, hasTruthyData pr = true ∨ ∃ n msg r, pr = mkErrorPage n msg r) →
      combinePageResults prs (.obj sf) = specCombine prs (.obj sf) := by
  intro prs sf hlen hkv hpages
  obtain ⟨p1, prs1, rfl⟩ : ∃ x xs, prs = x :: xs := by
    cases prs with
    | nil => simp at hlen
    | cons a as => exact ⟨a, as, rfl⟩
  obtain ⟨p2, prs2, rfl⟩ : ∃ x xs, prs1 = x :: xs := by
    cases prs1 with
    | nil => simp at hlen
    | cons a as => exact ⟨a, as, rfl⟩
  show combineMulti (p1 :: p2 :: prs2) (.obj sf) = specCombine (p1 :: p2 :: prs2) (.obj sf)
  have hpt : ∀ k ∈ objKeys (Json.obj sf),
      mergeValue ((getField (Json.obj sf) k).getD .null) (collectValues (p1 :: p2 :: prs2) k)
        = specMergeValue ((getField (Json.obj sf) k).getD .null)
            (specCollectValues (p1 :: p2 :: prs2) k) := by
    intro k hk
    obtain ⟨v, hv⟩ := lookupField_eq_some_of_mem_keys sf k (by simpa [objKeys] using hk)
    obtain ⟨hkp, hke, hkr, herr⟩ := hkv (k, v) (mem_of_lookupField_eq_some sf k v hv)
    have hcol : collectValues (p1 :: p2 :: prs2) k = specCollectValues (p1 :: p2 :: prs2) k := by
      apply filterMap_ext_mem
      intro pr hpr
      rcases hpages pr hpr with hd | ⟨n, msg, r, rfl⟩
      · exact collectOne_eq_spec k pr hd
      · rw [(collectOne_error_page k n msg r hkp hke hkr).1,
          (collectOne_error_page k n msg r hkp hke hkr).2]
    have hg : getField (Json.obj sf) k = some v := hv
    rw [hcol, hg]
    exact mergeValue_eq_spec v _ herr
  unfold combineMulti specCombine
  rw [buildCombined_congr
    (fun key => mergeValue ((getField (Json.obj sf) key).getD .null)
      (collectValues (p1 :: p2 :: prs2) key))
    (fun key => specMergeValue ((getField (Json.obj sf) key).getD .null)
      (specCollectValues (p1 :: p2 :: prs2) key))
    (objKeys (Json.obj sf)) hpt]

/-- C2 witness: the amended theorem applied to one errored page and one
dataful page against a schema keyed `a`. -/
theorem c2_witness :
    combinePageResults [mkErrorPage 1 ("boom") (.err ("x")), mkDataPage 2 (.obj [(("a"), .num 3)])]
        (.obj [(("a"), .num 0)])
      = specCombine [mkErrorPage 1 ("boom") (.err ("x")), mkDataPage 2 (.obj [(("a"), .num 3)])]
        (.obj [(("a"), .num 0)]) :=
  c2_error_page_isolated _ _ (by simp)
    (by intro kv hkv; simp at hkv; subst hkv
        exact ⟨by decide, by decide, by decide, rfl⟩)
    (by intro pr hpr; simp at hpr
        rcases hpr with rfl | rfl
        · exact Or.inr ⟨1, ("boom"), .err ("x"), rfl⟩
        · exact Or.inl rfl)

/-- C3 counterexample: page 1's reply `not json` fails to parse; the
returned PageResult has `error` set, but its `raw` field holds the caught
SyntaxError object — not the offending raw reply text the claim requires
(the reply text is attached only in the single-image path). -/
theorem c3_raw_is_error_object_cex :
    processSinglePage c3post c3parse ⟨1, ("i1")⟩ 2 {} (.obj []) [] [] none
      = mkErrorPage 1 ("Failed to parse response") (.err ("Unexpected token"))
    ∧ getField (processSinglePage c3post c3parse ⟨1, ("i1")⟩ 2 {} (.obj []) [] [] none) ("raw")
      ≠ some (.str ("not json")) := by
  refine ⟨rfl, fun h => ?_⟩
  have e1 : getField (processSinglePage c3post c3parse ⟨1, ("i1")⟩ 2 {} (.obj []) [] [] none)
      ("raw") = some (Json.err ("Unexpected token")) := rfl
  rw [e1] at h
  simp at h

/-- C3 (amended): a page whose LLM reply fails to parse yields a PageResult
with `error` set and the caught SyntaxError object — not the reply text —
attached as the `raw` diagnostic; the parse failure is never raised to the
caller (the page loop returns exactly one PageResult per input page,
whatever each page's outcome); and any ≥2-page merge records the full
ordered PageResult list, errored entries included, under `_pageResults`. -/
theorem c3_parse_failure_isolated :
    (∀ (post : String → List String → Except Json ProviderReply)
       (jsonParse : String → Except String Json) (page : PDFPage) (totalPages : Nat)
       (doc : DocumentData) (schema : Json) (metadata : List (String × FieldMeta))
       (ctx : List String) (docType : Option String) (r m : String),
      callLLM post (pagePrompt doc schema metadata docType page totalPages ctx)
          [page.imageBase64] = .ok r →
      jsonParse r = .error m →
      processSinglePage post jsonParse page totalPages doc schema metadata ctx docType
        = mkErrorPage page.pageNumber ("Failed to parse response") (.err m))
    ∧ (∀ (post : String → List String → Except Json ProviderReply)
         (jsonParse : String → Except String Json) (pages : List PDFPage)
         (doc : DocumentData) (schema : Json) (metadata : List (String × FieldMeta))
         (docType : Option String),
        (processAllPages post jsonParse pages doc schema metadata docType).length
          = pages.length)
    ∧ (∀ (rs : List Json) (sf : List (String × Json)),
        2 ≤ rs.length → (sf.map Prod.fst).Nodup →
        ("_pageResults") ∉ sf.map Prod.fst → ("_totalPages") ∉ sf.map Prod.fst →
        getField (combinePageResults rs (.obj sf)) ("_pageResults") = some (.arr rs)) := by
  refine ⟨?_, ?_, ?_⟩
  · intro post jsonParse page totalPages doc schema metadata ctx docType r m h1 h2
    simp only [processSinglePage]
    rw [h1]
    show (match jsonParse r with
      | Except.ok pageData => mkDataPage page.pageNumber pageData
      | Except.error m => mkErrorPage page.pageNumber ("Failed to parse response") (Json.err m))
      = mkErrorPage page.pageNumber ("Failed to parse response") (Json.err m)
    rw [h2]
  · intro post jsonParse pages doc schema metadata docType
    exact processAllPages_length post jsonParse pages doc schema metadata docType
  · intro rs sf hlen hnd h1 h2
    obtain ⟨r1, rs1, rfl⟩ : ∃ x xs, rs = x :: xs := by
      cases rs with
      | nil => simp at hlen
      | cons a as => exact ⟨a, as, rfl⟩
    obtain ⟨r2, rs2, rfl⟩ : ∃ x xs, rs1 = x :: xs := by
      cases rs1 with
      | nil => simp at hlen
      | cons a as => exact ⟨a, as, rfl⟩
    show getField (combineMulti (r1 :: r2 :: rs2) (.obj sf)) ("_pageResults") = _
    unfold combineMulti
    rw [combined_reserved_form _ (objKeys (Json.obj sf)) _ _ hnd h1 h2]
    show lookupField _ ("_pageResults") = _
    exact lookupField_append _ _ _ _ (by rw [map_fst_map_pair]; exact h1)

/-- C3 witness: the three parts applied to the concrete two-page run whose
first reply is `not json` and whose second reply parses. -/
theorem c3_witness :
    processSinglePage c3post c3parse ⟨1, ("i1")⟩ 2 {} (.obj []) [] [] none
      = mkErrorPage 1 ("Failed to parse response") (.err ("Unexpected token"))
    ∧ (processAllPages c3post c3parse [⟨1, ("i1")⟩, ⟨2, ("i2")⟩] {} (.obj []) [] none).length
      = 2
    ∧ getField (combinePageResults
        [mkErrorPage 1 ("Failed to parse response") (.err ("Unexpected token")),
         mkDataPage 2 (.obj [])] (.obj [(("a"), .num 0)])) ("_pageResults")
      = some (.arr [mkErrorPage 1 ("Failed to parse response") (.err ("Unexpected token")),
          mkDataPage 2 (.obj [])]) :=
  ⟨c3_parse_failure_isolated.1 c3post c3parse ⟨1, ("i1")⟩ 2 {} (.obj []) [] [] none
      ("not json") ("Unexpected token") rfl rfl,
   c3_parse_failure_isolated.2.1 c3post c3parse [⟨1, ("i1")⟩, ⟨2, ("i2")⟩] {} (.obj []) [] none,
   c3_parse_failure_isolated.2.2 _ [(("a"), .num 0)] (by simp) (by simp) (by simp) (by simp)⟩

/-- C4 counterexample: a transport-level failure on every LLM call — the
first page included — does not abort the PDF extraction: the request
returns a combined result whose PageResults carry the caught network error,
so the page-1 failure is folded into its PageResult instead of propagating
to the caller as the claim requires. -/
theorem c4_first_page_transport_not_fatal_cex :
    extractFromPDF c4post c4parse (.ok [⟨1, ("i1")⟩, ⟨2, ("i2")⟩]) {}
        (.obj [(("total"), .num 0)]) [] none
      = .ok (.obj [(("total"), .num 0),
          (("_pageResults"), .arr
            [mkErrorPage 1 ("Failed to parse response") (.err ("Network Error")),
             mkErrorPage 2 ("Failed to parse response") (.err ("Network Error"))]),
          (("_totalPages"), .num 2)]) := rfl

/-- C4 (amended): a transport-level LLM failure is fatal only for the page
in flight, whichever page that is — the first included: the page loop's
catch folds it into that page's PageResult (`error` set, `raw` the thrown
value) instead of propagating it to the caller.  For an object-shaped
expected schema a successful rasterization therefore still yields a
combined result, while a rasterization failure remains fatal for the whole
request (rewrapped as `PDF extraction failed: ...`).  (The object-shape
restriction matters: on a `null` schema with two or more pages the source's
`Object.keys(expectedSchema)` itself throws, a failure mode independent of
the LLM transport.) -/
theorem c4_transport_failure_per_page :
    (∀ (post : String → List String → Except Json ProviderReply)
       (jsonParse : String → Except String Json) (page : PDFPage) (totalPages : Nat)
       (doc : DocumentData) (schema : Json) (metadata : List (String × FieldMeta))
       (ctx : List String) (docType : Option String) (e : Json),
      callLLM post (pagePrompt doc schema metadata docType page totalPages ctx)
          [page.imageBase64] = .error e →
      processSinglePage post jsonParse page totalPages doc schema metadata ctx docType
        = mkErrorPage page.pageNumber ("Failed to parse response") e)
    ∧ (∀ (post : String → List String → Except Json ProviderReply)
         (jsonParse : String → Except String Json) (pages : List PDFPage)
         (doc : DocumentData) (sf : List (String × Json))
         (metadata : List (String × FieldMeta)) (docType : Option String),
        Except.isOk (extractFromPDF post jsonParse (.ok pages) doc (.obj sf) metadata docType)
          = true)
    ∧ (∀ (post : String → List String → Except Json ProviderReply)
         (jsonParse : String → Except String Json) (e : Json) (doc : DocumentData)
         (schema : Json) (metadata : List (String × FieldMeta)) (docType : Option String),
        extractFromPDF post jsonParse (.error e) doc schema metadata docType
          = .error ("PDF extraction failed: " ++ jsErrMessage e)) := by
  refine ⟨?_, fun post jsonParse pages doc sf metadata docType => rfl,
    fun post jsonParse e doc schema metadata docType => rfl⟩
  intro post jsonParse page totalPages doc schema metadata ctx docType e h
  simp only [processSinglePage]
  rw [h]

/-- C4 witness: the three parts applied to the always-failing provider with
two concrete pages, and to a failed rasterization. -/
theorem c4_witness :
    processSinglePage c4post c4parse ⟨1, ("i1")⟩ 2 {} (.obj []) [] [] none
      = mkErrorPage 1 ("Failed to parse response") (.err ("Network Error"))
    ∧ Except.isOk (extractFromPDF c4post c4parse (.ok [⟨1, ("i1")⟩, ⟨2, ("i2")⟩]) {}
        (.obj []) [] none) = true
    ∧ extractFromPDF c4post c4parse (.error (.err ("bad"))) {} (.obj []) [] none
      = .error ("PDF extraction failed: bad") :=
  ⟨c4_transport_failure_per_page.1 c4post c4parse ⟨1, ("i1")⟩ 2 {} (.obj []) [] [] none
      (.err ("Network Error")) rfl,
   c4_transport_failure_per_page.2.1 c4post c4parse [⟨1, ("i1")⟩, ⟨2, ("i2")⟩] {}
      [] [] none,
   c4_transport_failure_per_page.2.2 c4post c4parse (.err ("bad")) {} (.obj []) [] none⟩

/-- C5 counterexample: with a converter that fails on every probe — an
input that cannot be decoded as a PDF at all — the conversion returns a
zero-page result with no error: the first page's failure is swallowed as
loop termination, and no decode error is ever raised. -/
theorem c5_corrupt_pdf_silent_empty_cex :
    convertPDFToImages c5corrupt 5 = .ok ([] : List PDFPage)
    ∧ extractAllPages c5corrupt 5 = ([] : List PDFPage) := ⟨rfl, rfl⟩

/-- C5 (amended): when the converter renders pages 1..N and fails at page
N+1, rasterization returns exactly N pages numbered 1..N in increasing
order, stopping at the first page that fails to render; but for an input
that cannot be decoded at all (every probe fails) it silently returns an
empty zero-page sequence — no decode-failure error is thrown. -/
theorem c5_rasterize_pages :
    (∀ (conv : Nat → Except Json (Option String)) (b : Nat → String) (N fuel : Nat),
      (∀ n, 1 ≤ n → n ≤ N → conv n = .ok (some (b n)) ∧ ¬ b n = "") →
      extractSinglePage conv (N + 1) = none →
      N < fuel →
      extractAllPages conv fuel = (List.range' 1 N).map (fun n => (⟨n, b n⟩ : PDFPage))
      ∧ convertPDFToImages conv fuel
          = .ok ((List.range' 1 N).map (fun n => (⟨n, b n⟩ : PDFPage))))
    ∧ (∀ (conv : Nat → Except Json (Option String)) (fuel : Nat),
        (∀ n, ∃ e, conv n = .error e) →
        convertPDFToImages conv fuel = .ok ([] : List PDFPage)) := by
  constructor
  · intro conv b N fuel hok hstop hf
    have h := extractAllPagesAux_run conv b N 1 fuel
      (fun n h1 h2 => hok n h1 (by omega))
      (by rw [show 1 + N = N + 1 from by omega]; exact hstop) hf
    exact ⟨h, congrArg Except.ok h⟩
  · intro conv fuel hfail
    have h1 : extractSinglePage conv 1 = none := by
      obtain ⟨e, he⟩ := hfail 1
      simp [extractSinglePage, he]
    cases fuel with
    | zero => rfl
    | succ fuel =>
      show Except.ok (extractAllPagesAux conv (fuel + 1) 1) = _
      simp [extractAllPagesAux, h1]

/-- C5 witness: the theorem applied to the three-page converter with fuel 10
and to the corrupt-input converter. -/
theorem c5_witness :
    extractAllPages c5good 10
      = (List.range' 1 3).map (fun n => (⟨n, ("img")⟩ : PDFPage))
    ∧ convertPDFToImages c5corrupt 4 = .ok ([] : List PDFPage) :=
  ⟨(c5_rasterize_pages.1 c5good (fun _ => ("img")) 3 10
      (fun n h1 h2 => ⟨by simp [c5good, h2], by simp⟩)
      (by rfl) (by omega)).1,
   c5_rasterize_pages.2 c5corrupt 4 (fun n => ⟨.err ("bad pdf"), rfl⟩)⟩

set_option maxRecDepth 40000 in
/-- C7 counterexample: the schema field path `a.b` has a metadata entry of
type `date`, yet the built prompt nowhere contains the date format
instruction — the prompt builder enriches only top-level keys (plus
`field[].child` entries under an `array_of_objects`-typed top-level field)
and ignores metadata for nested field paths. -/
theorem c7_nested_metadata_ignored_cex :
    ¬ strContains (buildExtractionPrompt {} c7schema c7md none)
        ("(return in format YYYY-MM-DD)") := by
  have hB : containsB ("(return in format YYYY-MM-DD)").data
      (buildExtractionPrompt {} c7schema c7md none).data = false := by rfl
  intro h
  have h2 := (containsB_iff ("(return in format YYYY-MM-DD)").data
    (buildExtractionPrompt {} c7schema c7md none).data).mpr h
  rw [hB] at h2
  exact Bool.noConfusion h2

/-- C7 (amended): the prompt contains every top-level key name of the
expected schema literally, and for every top-level field path with a
metadata entry of (case-insensitive) type `date`, `datetime`, `time`, or
`multiple_choice` with a choices list, the prompt contains that field's
format instruction or joined choices list verbatim; metadata entries for
nested or non-schema field paths do not surface. -/
theorem c7_prompt_contains_keys_and_formats :
    (∀ (doc : DocumentData) (dt : Option String) (sf : List (String × Json))
       (md : List (String × FieldMeta)) (k : String) (v : Json),
      (k, v) ∈ sf → strContains (buildExtractionPrompt doc (.obj sf) md dt) k)
    ∧ (∀ (doc : DocumentData) (dt : Option String) (sf : List (String × Json))
         (md : List (String × FieldMeta)) (k : String) (v : Json) (m : FieldMeta)
         (t : String),
        (k, v) ∈ sf → lookupMeta md k = some m → m.type = some t →
        jsToLower t = ("date") →
        strContains (buildExtractionPrompt doc (.obj sf) md dt)
          ("(return in format YYYY-MM-DD)"))
    ∧ (∀ (doc : DocumentData) (dt : Option String) (sf : List (String × Json))
         (md : List (String × FieldMeta)) (k : String) (v : Json) (m : FieldMeta)
         (t : String),
        (k, v) ∈ sf → lookupMeta md k = some m → m.type = some t →
        jsToLower t = ("datetime") →
        strContains (buildExtractionPrompt doc (.obj sf) md dt)
          ("(return in format YYYY-MM-DD HH:MM:SS)"))
    ∧ (∀ (doc : DocumentData) (dt : Option String) (sf : List (String × Json))
         (md : List (String × FieldMeta)) (k : String) (v : Json) (m : FieldMeta)
         (t : String),
        (k, v) ∈ sf → lookupMeta md k = some m → m.type = some t →
        jsToLower t = ("time") →
        strContains (buildExtractionPrompt doc (.obj sf) md dt)
          ("(return in format HH:MM:SS)"))
    ∧ (∀ (doc : DocumentData) (dt : Option String) (sf : List (String × Json))
         (md : List (String × FieldMeta)) (k : String) (v : Json) (m : FieldMeta)
         (t : String) (cs : List String),
        (k, v) ∈ sf → lookupMeta md k = some m → m.type = some t →
        jsToLower t = ("multiple_choice") → m.choices = some cs →
        strContains (buildExtractionPrompt doc (.obj sf) md dt)
          ("(return in one of the options: " ++ String.intercalate (", ") cs ++ ")")) := by
  refine ⟨?_, ?_, ?_, ?_, ?_⟩
  · intro doc dt sf md k v hmem
    obtain ⟨w, hw⟩ := mem_buildEnhancedSchema_any sf md k v hmem
    apply prompt_contains_of_fields
    refine strContains_trans _ ("\"" ++ k ++ "\":" ++ jsonStringify w) _
      (stringifyFields_contains _ k w hw) ?_
    apply strContains_append_left
    apply strContains_append_left
    apply strContains_append_right
    exact strContains_refl k
  · intro doc dt sf md k v m t hmem hlm ht hty
    have hne : t ≠ ("array_of_objects") := fun he => by
      rw [he] at hty; exact absurd hty (by decide)
    have hv : enhanceField md k v
        = .str (jsToString (descBase v m) ++ " (return in format YYYY-MM-DD)") := by
      rw [enhanceField_of_typed md k v m t hlm ht hne, describeField_date v m t ht hty]
    apply prompt_contains_of_fields
    refine strContains_trans _ ("\"" ++ k ++ "\":" ++ jsonStringify (enhanceField md k v)) _
      (stringifyFields_contains _ k _
        (mem_buildEnhancedSchema sf md k v hmem (lookupMeta_ne_nil md k m hlm))) ?_
    apply strContains_append_right
    rw [hv]
    exact strContains_quoted _ _ (jsToString (descBase v m)).data
      (by rw [String.data_append])
  · intro doc dt sf md k v m t hmem hlm ht hty
    have hne : t ≠ ("array_of_objects") := fun he => by
      rw [he] at hty; exact absurd hty (by decide)
    have hv : enhanceField md k v
        = .str (jsToString (descBase v m) ++ " (return in format YYYY-MM-DD HH:MM:SS)") := by
      rw [enhanceField_of_typed md k v m t hlm ht hne, describeField_datetime v m t ht hty]
    apply prompt_contains_of_fields
    refine strContains_trans _ ("\"" ++ k ++ "\":" ++ jsonStringify (enhanceField md k v)) _
      (stringifyFields_contains _ k _
        (mem_buildEnhancedSchema sf md k v hmem (lookupMeta_ne_nil md k m hlm))) ?_
    apply strContains_append_right
    rw [hv]
    exact strContains_quoted _ _ (jsToString (descBase v m)).data
      (by rw [String.data_append])
  · intro doc dt sf md k v m t hmem hlm ht hty
    have hne : t ≠ ("array_of_objects") := fun he => by
      rw [he] at hty; exact absurd hty (by decide)
    have hv : enhanceField md k v
        = .str (jsToString (descBase v m) ++ " (return in format HH:MM:SS)") := by
      rw [enhanceField_of_typed md k v m t hlm ht hne, describeField_time v m t ht hty]
    apply prompt_contains_of_fields
    refine strContains_trans _ ("\"" ++ k ++ "\":" ++ jsonStringify (enhanceField md k v)) _
      (stringifyFields_contains _ k _
        (mem_buildEnhancedSchema sf md k v hmem (lookupMeta_ne_nil md k m hlm))) ?_
    apply strContains_append_right
    rw [hv]
    exact strContains_quoted _ _ (jsToString (descBase v m)).data
      (by rw [String.data_append])
  · intro doc dt sf md k v m t cs hmem hlm ht hty hcs
    have hne : t ≠ ("array_of_objects") := fun he => by
      rw [he] at hty; exact absurd hty (by decide)
    have hv : enhanceField md k v
        = .str (jsToString (descBase v m) ++ " (return in one of the options: "
            ++ String.intercalate (", ") cs ++ ")") := by
      rw [enhanceField_of_typed md k v m t hlm ht hne, describeField_mc v m t cs ht hty hcs]
    apply prompt_contains_of_fields
    refine strContains_trans _ ("\"" ++ k ++ "\":" ++ jsonStringify (enhanceField md k v)) _
      (stringifyFields_contains _ k _
        (mem_buildEnhancedSchema sf md k v hmem (lookupMeta_ne_nil md k m hlm))) ?_
    apply strContains_append_right
    rw [hv]
    refine strContains_quoted _ _ (jsToString (descBase v m)).data ?_
    have hP : (" (return in one of the options: ").data
        = ' ' :: ("(return in one of the options: ").data := rfl
    simp [String.data_append, List.append_assoc, hP]

/-- C7 witness: the key containment and the date/multiple-choice instruction
containment applied to the concrete two-field schema and metadata. -/
theorem c7_witness :
    strContains (buildExtractionPrompt {} c7wschema c7wmd none) ("d")
    ∧ strContains (buildExtractionPrompt {} c7wschema c7wmd none)
        ("(return in format YYYY-MM-DD)")
    ∧ strContains (buildExtractionPrompt {} c7wschema c7wmd none)
        ("(return in one of the options: " ++ String.intercalate (", ") [("yes"), ("no")] ++ ")") :=
  ⟨c7_prompt_contains_keys_and_formats.1 {} none _ c7wmd ("d") (.str ("")) (by simp [c7wschema]),
   c7_prompt_contains_keys_and_formats.2.1 {} none _ c7wmd ("d") (.str (""))
      { type := some ("date") } ("date") (by simp [c7wschema]) rfl rfl (by decide),
   c7_prompt_contains_keys_and_formats.2.2.2.2 {} none _ c7wmd ("c") (.str (""))
      { type := some ("multiple_choice"), choices := some [("yes"), ("no")] }
      ("multiple_choice") [("yes"), ("no")] (by simp [c7wschema]) rfl rfl (by decide) rfl⟩

end FnApi
